import Mathlib

/-!
Shallow embedding of the `@rvanbaalen/signals` library (src/index.js):
the `Signal` pub/sub primitive, the `SignalGroup` namespace of signals,
and the `Store` state container.  JavaScript objects are modelled as
insertion-ordered association lists living in an explicit heap, so that
object identity (references) can be reasoned about; JS `Set` iteration
is modelled with the ECMAScript entry-slot semantics (a deleted entry
leaves an empty slot that iteration skips, entries added during
iteration are visited).
-/

set_option autoImplicit false

namespace Signals

/-- JS values relevant to this library.  Objects and functions are
    references: `vObj r` points into the heap, `vFunc f` is an opaque
    function identity.  (Arrays appear in the API only as the group
    specification and the list selector, which get their own types.) -/
inductive Val where
  | vUndef
  | vNull
  | vBool (b : Bool)
  | vNum (n : Int)
  | vStr (s : String)
  | vObj (r : Nat)
  | vFunc (f : Nat)
deriving DecidableEq, Repr

/-- The JS `typeof` operator (note `typeof null === "object"`). -/
def jsTypeof : Val → String
  | .vUndef => "undefined"
  | .vNull => "object"
  | .vBool _ => "boolean"
  | .vNum _ => "number"
  | .vStr _ => "string"
  | .vObj _ => "object"
  | .vFunc _ => "function"

/-- JS truthiness. -/
def truthy : Val → Bool
  | .vUndef => false
  | .vNull => false
  | .vBool b => b
  | .vNum n => decide (n ≠ 0)
  | .vStr s => decide (s ≠ "")
  | .vObj _ => true
  | .vFunc _ => true

/-- The fields of a JS object, in property insertion order. -/
abbrev Fields := List (String × Val)

/-- The heap: object reference → fields.  Allocation prepends. -/
abbrev Heap := List (Nat × Fields)

/-- Look up a key in an insertion-ordered string map (first match). -/
def lookupEntry {β : Type} : List (String × β) → String → Option β
  | [], _ => none
  | p :: rest, k => if p.1 = k then some p.2 else lookupEntry rest k

/-- JS property assignment `o[k] = v`: an existing key keeps its
    position and gets the new value, a new key is appended. -/
def setEntry {β : Type} : List (String × β) → String → β → List (String × β)
  | [], k, v => [(k, v)]
  | p :: rest, k, v => if p.1 = k then (k, v) :: rest else p :: setEntry rest k v

/-- Dereference a heap reference (absent references read as empty). -/
def heapGet : Heap → Nat → Fields
  | [], _ => []
  | (r, fs) :: rest, q => if r = q then fs else heapGet rest q

/-- Allocate a fresh object holding `fs`; returns the heap, the next
    free reference, and the new object value. -/
def allocObj (h : Heap) (n : Nat) (fs : Fields) : Heap × Nat × Val :=
  ((n, fs) :: h, n + 1, Val.vObj n)

/-- The own enumerable fields contributed by a value under spread:
    objects contribute their fields, everything else contributes none
    (`{ ...null }`, `{ ...42 }`, ... are `{}`). -/
def fieldsOf (h : Heap) : Val → Fields
  | .vObj r => heapGet h r
  | _ => []

/-- `{ ...a }`: a fresh object built by assigning each field of `a`
    in order. -/
def copyFields (a : Fields) : Fields :=
  a.foldl (fun acc p => setEntry acc p.1 p.2) []

/-- `{ ...a, ...b }`: sequential property assignment of the fields of
    `a` then the fields of `b`, so keys of `b` overwrite matching keys
    of `a` in place and new keys are appended. -/
def mergeFields (a b : Fields) : Fields :=
  (a ++ b).foldl (fun acc p => setEntry acc p.1 p.2) []

/-- JS property read `v[k]` (primitive property reads that this
    library never relies on are modelled as `undefined`). -/
def getProp (h : Heap) (v : Val) (k : String) : Val :=
  match v with
  | .vObj r => (lookupEntry (heapGet h r) k).getD Val.vUndef
  | _ => Val.vUndef

/-- Character-level split on `'.'`: the segments of the list between
    dots (an empty input gives one empty segment, like JS
    `"".split(".")`). -/
def splitDotChars : List Char → List (List Char)
  | [] => [[]]
  | c :: rest =>
      let r := splitDotChars rest
      if c = '.' then [] :: r
      else
        match r with
        | [] => [[c]]
        | w :: ws => (c :: w) :: ws

/-- `s.split(".")` — the path splitting `Store.select` performs on a
    string selector; structurally recursive so concrete selections
    compute. -/
def splitDot (s : String) : List String :=
  (splitDotChars s.toList).map (fun cs => String.mk cs)

namespace Signal

/-!
`Signal.listeners` is a JS `Set`.  We model the set's internal entry
list: a slot is `some id` for a live listener (identified by a `Nat`)
and `none` for a deleted entry.  `Set.prototype.forEach` walks the
slots by index, skipping empty ones; entries appended during the walk
are visited.  This is exactly the ECMAScript iteration contract that
`Signal.emit`'s `this.listeners.forEach(...)` inherits.
-/

abbrev Entries := List (Option Nat)

/-- The live listeners of the set, in insertion order. -/
def live (e : Entries) : List Nat := e.filterMap id

/-- `Set.prototype.add`: no-op when the value is already present,
    otherwise a fresh entry is appended. -/
def setAdd (e : Entries) (v : Nat) : Entries :=
  if some v ∈ e then e else e ++ [some v]

/-- `Set.prototype.delete`: the value's slot (if any) becomes empty. -/
def setDelete (e : Entries) (v : Nat) : Entries :=
  e.map (fun x => if x = some v then none else x)

/-- `Signal.connect` on an (always callable, identity-keyed) listener:
    adds it to the set.  Registering the same reference twice is a
    duplicate no-op (`Set` semantics). -/
def connect (e : Entries) (id : Nat) : Entries := setAdd e id

/-- `Signal.disconnect`: removes the listener. -/
def disconnect (e : Entries) (id : Nat) : Entries := setDelete e id

/-- What a listener body does when invoked, as observable by the
    signal: connect another listener, disconnect one, throw, or do
    unrelated work. -/
inductive LStep where
  | conn (j : Nat)
  | disc (j : Nat)
  | raise
  | noop
deriving DecidableEq, Repr

/-- Assignment of a body to every listener identity. -/
abbrev Beh := Nat → List LStep

/-- Run a listener body over the entry list.  A `raise` aborts the
    rest of the body (the exception propagates out of the listener);
    the returned flag records whether the body threw. -/
def runSteps : List LStep → Entries → Entries × Bool
  | [], e => (e, false)
  | .raise :: _, e => (e, true)
  | .noop :: rest, e => runSteps rest e
  | .conn j :: rest, e => runSteps rest (setAdd e j)
  | .disc j :: rest, e => runSteps rest (setDelete e j)

/-- Does a body throw when run from its start? -/
def hasRaise (steps : List LStep) : Bool :=
  steps.any (fun s => decide (s = LStep.raise))

/-- The `forEach` loop of `Signal.emit`, from slot index `i`.  Each
    live slot's listener is invoked with `args`; `try/catch` confines a
    listener's throw, appending it to the `console.error` log, and the
    loop continues.  `fuel` bounds the number of slots walked (the loop
    can be made non-terminating by a listener that keeps re-adding
    itself); `none` means the fuel ran out.  Returns the final entry
    list, the invocation trace `(listener, args)` in call order, and
    the error log. -/
def emitFrom {α : Type} (beh : Beh) (args : α) :
    Nat → Nat → Entries → Option (Entries × List (Nat × α) × List Nat)
  | 0, i, e => if i < e.length then none else some (e, [], [])
  | fuel + 1, i, e =>
      match e[i]? with
      | none => some (e, [], [])
      | some none => emitFrom beh args fuel (i + 1) e
      | some (some id) =>
          let p := runSteps (beh id) e
          match emitFrom beh args fuel (i + 1) p.1 with
          | none => none
          | some (e2, tr, er) =>
              some (e2, (id, args) :: tr, if p.2 then id :: er else er)

/-- `Signal.emit(...args)`: walk the listener set from the start. -/
def emit {α : Type} (beh : Beh) (args : α) (fuel : Nat) (e : Entries) :
    Option (Entries × List (Nat × α) × List Nat) :=
  emitFrom beh args fuel 0 e

/-- A listener body that never mutates the listener set (it may still
    throw or do unrelated work). -/
def NoMut (steps : List LStep) : Prop :=
  ∀ s ∈ steps, s = LStep.noop ∨ s = LStep.raise

instance (steps : List LStep) : Decidable (NoMut steps) :=
  inferInstanceAs (Decidable (∀ s ∈ steps, _ ∨ _))

end Signal

/-- The two `TypeError`s the library raises (`Signal.connect` on a
    non-function, `Store.update` on a bad updater) plus the built-in
    `TypeError` that `Object.keys(null)` raises in the constructor. -/
inductive JsError where
  | typeError (msg : String)
deriving DecidableEq, Repr

/-!
Store-level view.  Inside a `Store`, a `Signal`'s listener set is
observed only through `connect` (set-add of a function value) and
`emit` (which we record as an emission event carrying the listener
list and the two state arguments); the re-entrant iteration semantics
of `emit` itself is the `Signal.emitFrom` model above.
-/

/-- A `Signal`'s listeners as seen by the store: the live insertion
    ordered set of registered function values. -/
abbrev SignalJ := List Val

/-- `SignalGroup.signals`: a `Map` from signal name to signal,
    insertion ordered. -/
abbrev SignalGroupJ := List (String × SignalJ)

/-- `Set.prototype.add` on listener values (identity dedup). -/
def listenerAdd (s : SignalJ) (v : Val) : SignalJ :=
  if v ∈ s then s else s ++ [v]

namespace SignalGroup

/-- `SignalGroup.get(name)`: returns the named signal, creating and
    storing an empty one first when absent.  Returns the (possibly
    grown) group together with the signal. -/
def get (grp : SignalGroupJ) (name : String) : SignalGroupJ × SignalJ :=
  match lookupEntry grp name with
  | some s => (grp, s)
  | none => (setEntry grp name [], [])

/-- `SignalGroup.has(name)`. -/
def has (grp : SignalGroupJ) (name : String) : Bool :=
  (lookupEntry grp name).isSome

end SignalGroup

/-- One `emit` performed by the store: which group and signal emitted,
    the listeners registered on it at that moment, and the
    `(newState, oldState)` arguments passed to them. -/
structure Emission where
  signalGroup : String
  signalName : String
  listeners : SignalJ
  newState : Val
  oldState : Val
deriving DecidableEq, Repr

/-- The state of a `Store`: the heap of JS objects with its allocation
    counter, `this.state` (a value, normally an object reference), and
    `this.signals` (a plain JS object mapping group name to group). -/
structure StoreSt where
  heap : Heap
  nextRef : Nat
  state : Val
  signals : List (String × SignalGroupJ)
deriving DecidableEq, Repr

/-- The `updater` argument of `Store.update`.  JS function values are
    represented by `fn` (the function may read and extend the heap);
    `val` holds any non-function value. -/
inductive Updater where
  | fn (f : Heap → Nat → Val → Heap × Nat × Val)
  | val (v : Val)

/-- The precondition documented for `Store.update`'s `updater`
    argument: a function, or a value of JS type `"object"`. -/
def Updater.Valid : Updater → Prop
  | .fn _ => True
  | .val v => jsTypeof v = "object"

/-- The `signalGroups` constructor argument: omitted/`undefined`
    (which triggers the `["state"]` default), a JS array of names, a
    non-null object reference, `null`, or any other (primitive /
    function) value — the latter are neither `Array.isArray` nor of
    `typeof` `"object"`, so both branches are skipped. -/
inductive GroupSpec where
  | undef
  | arr (xs : List String)
  | objRef (r : Nat)
  | nullSpec
  | prim (v : Val)
deriving Repr

/-- The `selector` argument of `Store.select`: a string path, an array
    of string keys, a function, or anything else (including omitted). -/
inductive Selector where
  | str (s : String)
  | list (ks : List String)
  | sfun (f : Heap → Val → Val)
  | other (v : Val)

namespace Store

/-- `if (!this.signals.state) this.signals.state = new SignalGroup()`. -/
def ensureState (signals : List (String × SignalGroupJ)) :
    List (String × SignalGroupJ) :=
  match lookupEntry signals "state" with
  | some _ => signals
  | none => setEntry signals "state" []

/-- The `Store` constructor: shallow-copies the initial state into a
    fresh object, builds one empty group per name of the group
    specification (array branch first, then the `typeof "object"`
    branch whose `Object.keys(null)` throws a `TypeError`), and
    finally guarantees the `"state"` group.  The `undef` spec takes
    the `["state"]` default parameter. -/
def construct (h : Heap) (n : Nat) (initV : Val) (sg : GroupSpec) :
    Except JsError StoreSt :=
  let a := allocObj h n (copyFields (fieldsOf h initV))
  let sgD := match sg with
    | .undef => GroupSpec.arr ["state"]
    | x => x
  match sgD with
  | .undef => Except.ok ⟨a.1, a.2.1, a.2.2, ensureState []⟩
  | .arr xs =>
      let signals := xs.foldl (fun acc g => setEntry acc g []) []
      Except.ok ⟨a.1, a.2.1, a.2.2, ensureState signals⟩
  | .objRef r =>
      let signals := ((heapGet a.1 r).map Prod.fst).foldl
        (fun acc g => setEntry acc g []) []
      Except.ok ⟨a.1, a.2.1, a.2.2, ensureState signals⟩
  | .nullSpec =>
      Except.error (JsError.typeError "Cannot convert undefined or null to object")
  | .prim _ => Except.ok ⟨a.1, a.2.1, a.2.2, ensureState []⟩

/-- `createStore(initialState, signalGroups)`: passes both arguments
    straight to the constructor (so an omitted second argument arrives
    as `undefined` and picks up the constructor's default). -/
def createStore (h : Heap) (n : Nat) (initV : Val) (sg : GroupSpec) :
    Except JsError StoreSt :=
  construct h n initV sg

/-- `Store.update(updater, signalGroup = "state", signalName =
    "changed")`.  Snapshots `oldState` as a fresh shallow copy, then
    dispatches on `typeof updater`: a function's return value becomes
    the state verbatim; an `"object"` (including `null`) is spread
    over the current state into a fresh object; anything else throws
    (the snapshot allocation has already happened, the state itself is
    untouched).  When the group exists, `get(signalName)` lazily
    creates the signal and it emits `(this.state, oldState)`; a
    missing group skips emission silently.  Returns the new state. -/
def update (st : StoreSt) (u : Updater)
    (signalGroup : String) (signalName : String) :
    StoreSt × List Emission × Except JsError Val :=
  let a := allocObj st.heap st.nextRef (copyFields (fieldsOf st.heap st.state))
  let oldState := a.2.2
  match u with
  | .fn f =>
      let r := f a.1 a.2.1 st.state
      let st1 : StoreSt := ⟨r.1, r.2.1, r.2.2, st.signals⟩
      match lookupEntry st1.signals signalGroup with
      | none => (st1, [], Except.ok st1.state)
      | some grp =>
          let g := SignalGroup.get grp signalName
          (⟨st1.heap, st1.nextRef, st1.state, setEntry st1.signals signalGroup g.1⟩,
           [⟨signalGroup, signalName, g.2, st1.state, oldState⟩],
           Except.ok st1.state)
  | .val v =>
      if jsTypeof v = "object" then
        let b := allocObj a.1 a.2.1
          (mergeFields (fieldsOf a.1 st.state) (fieldsOf a.1 v))
        let st1 : StoreSt := ⟨b.1, b.2.1, b.2.2, st.signals⟩
        match lookupEntry st1.signals signalGroup with
        | none => (st1, [], Except.ok st1.state)
        | some grp =>
            let g := SignalGroup.get grp signalName
            (⟨st1.heap, st1.nextRef, st1.state, setEntry st1.signals signalGroup g.1⟩,
             [⟨signalGroup, signalName, g.2, st1.state, oldState⟩],
             Except.ok st1.state)
      else
        (⟨a.1, a.2.1, st.state, st.signals⟩, [],
         Except.error (JsError.typeError "Updater must be an object or a function"))

/-- The string branch of `Store.select`: split the path on `"."` and
    reduce over the keys starting from `this.state`, yielding
    `undefined` as soon as the accumulator is falsy or lacks the key. -/
def selectStr (st : StoreSt) (s : String) : Val :=
  (splitDot s).foldl
    (fun obj key =>
      if truthy obj = true ∧ getProp st.heap obj key ≠ Val.vUndef then
        getProp st.heap obj key
      else Val.vUndef)
    st.state

/-- `Store.select(selector)`: a string is a dot path; an array builds
    a fresh result object assigning `result[key] = this.select(key)`
    for each entry (note the recursive call: a string entry goes
    through the string branch, dots included); a function is applied
    to the state; anything else returns `this.state` itself. -/
def select (st : StoreSt) (sel : Selector) : StoreSt × Val :=
  match sel with
  | .str s => (st, selectStr st s)
  | .list ks =>
      let fs := ks.foldl (fun acc k => setEntry acc k (selectStr st k)) []
      let a := allocObj st.heap st.nextRef fs
      (⟨a.1, a.2.1, st.state, st.signals⟩, a.2.2)
  | .sfun f => (st, f st.heap st.state)
  | .other _ => (st, st.state)

/-- Modelled from the spec (claim C8's contrast): a list selector
    returning, for each entry, "the result of selecting that single
    key" as a flat key of the state — no dot splitting per entry. -/
def selectListFlatSpec (st : StoreSt) (ks : List String) : Fields :=
  ks.foldl
    (fun acc k =>
      setEntry acc k
        (if truthy st.state = true ∧ getProp st.heap st.state k ≠ Val.vUndef then
          getProp st.heap st.state k
        else Val.vUndef))
    []

/-- `Store.connect(signalGroup, signalName, listener)`: creates the
    group when missing, `get`s (and thereby possibly creates) the
    signal, then `Signal.connect` type-checks the listener — throwing
    a `TypeError` on a non-function *after* the group and signal have
    been created — and on success adds it to the signal's set. -/
def connect (st : StoreSt) (signalGroup : String) (signalName : String)
    (listener : Val) : StoreSt × Except JsError Unit :=
  let signals1 :=
    match lookupEntry st.signals signalGroup with
    | none => setEntry st.signals signalGroup []
    | some _ => st.signals
  let grp := (lookupEntry signals1 signalGroup).getD []
  let g := SignalGroup.get grp signalName
  if jsTypeof listener = "function" then
    let grp2 := setEntry g.1 signalName (listenerAdd g.2 listener)
    (⟨st.heap, st.nextRef, st.state, setEntry signals1 signalGroup grp2⟩,
     Except.ok ())
  else
    (⟨st.heap, st.nextRef, st.state, setEntry signals1 signalGroup g.1⟩,
     Except.error (JsError.typeError "Signal listener must be a function"))

/-- `Store.reset(initialState = {})`: snapshots the old state,
    replaces the state with a fresh shallow copy of `initialState`,
    and emits `(newState, oldState)` on the `"reset"` signal of the
    `"state"` group when that group exists. -/
def reset (st : StoreSt) (initV : Val) :
    StoreSt × List Emission × Val :=
  let a := allocObj st.heap st.nextRef (copyFields (fieldsOf st.heap st.state))
  let oldState := a.2.2
  let b := allocObj a.1 a.2.1 (copyFields (fieldsOf a.1 initV))
  let st1 : StoreSt := ⟨b.1, b.2.1, b.2.2, st.signals⟩
  match lookupEntry st1.signals "state" with
  | none => (st1, [], st1.state)
  | some grp =>
      let g := SignalGroup.get grp "reset"
      (⟨st1.heap, st1.nextRef, st1.state, setEntry st1.signals "state" g.1⟩,
       [⟨"state", "reset", g.2, st1.state, oldState⟩],
       st1.state)

/-- The `"state"` group exists in the store's signals. -/
def hasState (st : StoreSt) : Prop :=
  (lookupEntry st.signals "state").isSome = true

end Store

/-! ### Lemmas about the `Signal` emission loop -/

namespace Signal

theorem mem_live {e : Entries} {x : Nat} : x ∈ live e ↔ some x ∈ e := by
  simp [live, List.mem_filterMap]

theorem runSteps_of_noMut {steps : List LStep} (e : Entries) (h : NoMut steps) :
    runSteps steps e = (e, hasRaise steps) := by
  induction steps with
  | nil => simp [runSteps, hasRaise]
  | cons s rest ih =>
      rcases h s (List.mem_cons_self s rest) with hs | hs <;> subst hs
      · have := ih (fun t ht => h t (List.mem_cons_of_mem _ ht))
        simp [runSteps, hasRaise, List.any_cons] at this ⊢
        exact this
      · simp [runSteps, hasRaise, List.any_cons]

theorem emitFrom_of_noMut {α : Type} (beh : Beh) (args : α)
    (e : Entries) (hm : ∀ id, some id ∈ e → NoMut (beh id)) :
    ∀ (fuel i : Nat), e.length ≤ i + fuel →
    emitFrom beh args fuel i e =
      some (e, ((e.drop i).filterMap id).map (fun x => (x, args)),
            ((e.drop i).filterMap id).filter (fun x => hasRaise (beh x))) := by
  intro fuel
  induction fuel with
  | zero =>
      intro i hle
      have hge : ¬ i < e.length := by omega
      simp [emitFrom, hge, List.drop_eq_nil_of_le (by omega : e.length ≤ i)]
  | succ fuel ih =>
      intro i hle
      by_cases hi : i < e.length
      · have hget : e[i]? = some e[i] := List.getElem?_eq_getElem hi
        have hdrop : e.drop i = e[i] :: e.drop (i + 1) :=
          List.drop_eq_getElem_cons hi
        have hrec := ih (i + 1) (by omega)
        match hx : e[i] with
        | none =>
            simp [emitFrom, hget, hx, hrec, hdrop, List.filterMap_cons]
        | some id =>
            have hmem : some id ∈ e := hx ▸ List.getElem_mem hi
            have hrun := runSteps_of_noMut e (hm id hmem)
            simp only [emitFrom, hget, hx, hrun, hrec, hdrop,
              List.filterMap_cons, id_eq, List.map_cons, List.filter_cons]
      · have hnone : e[i]? = none := by
          rw [List.getElem?_eq_none_iff]; omega
        simp [emitFrom, hnone, List.drop_eq_nil_of_le (by omega : e.length ≤ i)]

/-- `Set.add` during an in-flight iteration: the original listeners
    stay present, the length does not shrink, and the not-yet-visited
    suffix restricted to original listeners is unchanged (an appended
    entry is never an original — originals are already present, so
    adding them is a no-op). -/
theorem setAdd_originals (e₀ e : Entries) (j k : Nat)
    (hw : ∀ x, some x ∈ e₀ → some x ∈ e) (hk : k ≤ e.length) :
    (∀ x, some x ∈ e₀ → some x ∈ setAdd e j)
    ∧ k ≤ (setAdd e j).length
    ∧ (((setAdd e j).drop k).filterMap id).filter (fun x => decide (some x ∈ e₀)) =
      ((e.drop k).filterMap id).filter (fun x => decide (some x ∈ e₀)) := by
  by_cases hj : some j ∈ e
  · rw [setAdd, if_pos hj]
    exact ⟨hw, hk, rfl⟩
  · rw [setAdd, if_neg hj]
    have hj0 : some j ∉ e₀ := fun hc => hj (hw j hc)
    refine ⟨?_, ?_, ?_⟩
    · intro x hx
      exact List.mem_append_left _ (hw x hx)
    · simp only [List.length_append, List.length_cons, List.length_nil]
      omega
    · rw [List.drop_append_of_le_length hk, List.filterMap_append,
        List.filter_append]
      simp [hj0]

/-- `Set.delete` of a non-original listener during an in-flight
    iteration: originals stay present, the length is unchanged, and
    the not-yet-visited suffix restricted to originals is unchanged. -/
theorem setDelete_originals (e₀ e : Entries) (j k : Nat)
    (hj0 : some j ∉ e₀) (hw : ∀ x, some x ∈ e₀ → some x ∈ e)
    (hk : k ≤ e.length) :
    (∀ x, some x ∈ e₀ → some x ∈ setDelete e j)
    ∧ k ≤ (setDelete e j).length
    ∧ (((setDelete e j).drop k).filterMap id).filter (fun x => decide (some x ∈ e₀)) =
      ((e.drop k).filterMap id).filter (fun x => decide (some x ∈ e₀)) := by
  refine ⟨?_, ?_, ?_⟩
  · intro x hx
    have hxj : ¬ (some x = some j) := fun hc => hj0 (hc ▸ hx)
    exact List.mem_map.2 ⟨some x, hw x hx, by simp [hxj]⟩
  · simpa [setDelete] using hk
  · rw [setDelete, ← List.map_drop, List.filterMap_map]
    generalize e.drop k = l
    induction l with
    | nil => rfl
    | cons x rest ih =>
        cases x with
        | none => exact ih
        | some y =>
            by_cases hy : y = j
            · rw [hy]
              have h1 : (id ∘ fun x => if x = some j then none else x)
                  (some j) = (none : Option Nat) := if_pos rfl
              have h2 : (id : Option Nat → Option Nat) (some j) = some j := rfl
              rw [List.filterMap_cons_none h1, List.filterMap_cons_some h2,
                List.filter_cons_of_neg (by simp [hj0])]
              exact ih
            · have h1 : (id ∘ fun x => if x = some j then none else x)
                  (some y) = some y := by
                simp [hy]
              have h2 : (id : Option Nat → Option Nat) (some y) = some y := rfl
              rw [List.filterMap_cons_some h1, List.filterMap_cons_some h2,
                List.filter_cons, List.filter_cons, ih]

/-- Running one listener body whose `disconnect`s never target an
    original listener preserves the originals, the length bound, and
    the not-yet-visited original suffix. -/
theorem runSteps_originals (e₀ : Entries) (k : Nat) :
    ∀ (steps : List LStep) (e : Entries),
    (∀ j, LStep.disc j ∈ steps → some j ∉ e₀) →
    (∀ x, some x ∈ e₀ → some x ∈ e) →
    k ≤ e.length →
    (∀ x, some x ∈ e₀ → some x ∈ (runSteps steps e).1)
    ∧ k ≤ (runSteps steps e).1.length
    ∧ (((runSteps steps e).1.drop k).filterMap id).filter
        (fun x => decide (some x ∈ e₀)) =
      ((e.drop k).filterMap id).filter (fun x => decide (some x ∈ e₀)) := by
  intro steps
  induction steps with
  | nil => intro e _ hw hk; exact ⟨hw, hk, rfl⟩
  | cons s rest ih =>
      intro e hd hw hk
      cases s with
      | raise => exact ⟨hw, hk, rfl⟩
      | noop => exact ih e (fun j hj => hd j (List.mem_cons_of_mem _ hj)) hw hk
      | conn j =>
          obtain ⟨hw2, hk2, hr2⟩ := setAdd_originals e₀ e j k hw hk
          obtain ⟨hw3, hk3, hr3⟩ :=
            ih (setAdd e j) (fun j2 hj2 => hd j2 (List.mem_cons_of_mem _ hj2)) hw2 hk2
          exact ⟨hw3, hk3, hr3.trans hr2⟩
      | disc j =>
          have hj0 : some j ∉ e₀ := hd j (List.mem_cons_self _ _)
          obtain ⟨hw2, hk2, hr2⟩ := setDelete_originals e₀ e j k hj0 hw hk
          obtain ⟨hw3, hk3, hr3⟩ :=
            ih (setDelete e j) (fun j2 hj2 => hd j2 (List.mem_cons_of_mem _ hj2)) hw2 hk2
          exact ⟨hw3, hk3, hr3.trans hr2⟩

/-- The live `forEach` iteration, when no listener disconnects an
    original listener: the completed trace, restricted to the original
    listeners, is exactly the not-yet-visited original slots in
    insertion order, and every invocation carries `args`. -/
theorem emitFrom_originals {α : Type} (e₀ : Entries) (beh : Beh) (args : α)
    (hnd : ∀ id j, LStep.disc j ∈ beh id → some j ∉ e₀) :
    ∀ (fuel i : Nat) (e : Entries) res,
    (∀ x, some x ∈ e₀ → some x ∈ e) →
    emitFrom beh args fuel i e = some res →
    (res.2.1.map Prod.fst).filter (fun x => decide (some x ∈ e₀)) =
      ((e.drop i).filterMap id).filter (fun x => decide (some x ∈ e₀))
    ∧ ∀ p ∈ res.2.1, p.2 = args := by
  intro fuel
  induction fuel with
  | zero =>
      intro i e res hw hres
      unfold emitFrom at hres
      by_cases hi : i < e.length
      · rw [if_pos hi] at hres
        cases hres
      · rw [if_neg hi] at hres
        injection hres with h1
        subst h1
        refine ⟨?_, fun p hp => absurd hp (List.not_mem_nil p)⟩
        simp [List.drop_eq_nil_of_le (Nat.le_of_not_lt hi)]
  | succ fuel ih =>
      intro i e res hw hres
      simp only [emitFrom] at hres
      split at hres
      case h_1 hgi =>
        injection hres with h1
        subst h1
        have hlen : e.length ≤ i := by
          have := List.getElem?_eq_none_iff.1 hgi
          omega
        refine ⟨?_, fun p hp => absurd hp (List.not_mem_nil p)⟩
        simp [List.drop_eq_nil_of_le hlen]
      case h_2 hgi =>
        have hi : i < e.length := by
          by_contra hcon
          rw [List.getElem?_eq_none_iff.2 (by omega)] at hgi
          cases hgi
        have hei : e[i] = none := by
          rw [List.getElem?_eq_getElem hi] at hgi
          injection hgi with h2
        obtain ⟨htr, hargs⟩ := ih (i + 1) e res hw hres
        refine ⟨?_, hargs⟩
        have hdrop : e.drop i = none :: e.drop (i + 1) := by
          rw [List.drop_eq_getElem_cons hi, hei]
        rw [htr, hdrop]
        rfl
      case h_3 lid hgi =>
        split at hres
        case h_1 => cases hres
        case h_2 e2 tr er hrec =>
          injection hres with h1
          subst h1
          have hi : i < e.length := by
            by_contra hcon
            rw [List.getElem?_eq_none_iff.2 (by omega)] at hgi
            cases hgi
          have hei : e[i] = some lid := by
            rw [List.getElem?_eq_getElem hi] at hgi
            injection hgi with h2
          obtain ⟨hw2, hk2, hr2⟩ :=
            runSteps_originals e₀ (i + 1) (beh lid) e (hnd lid) hw (by omega)
          obtain ⟨htr, hargs⟩ :=
            ih (i + 1) (runSteps (beh lid) e).1 (e2, tr, er) hw2 hrec
          constructor
          · have hdrop : e.drop i = some lid :: e.drop (i + 1) := by
              rw [List.drop_eq_getElem_cons hi, hei]
            have hx : (tr.map Prod.fst).filter (fun x => decide (some x ∈ e₀)) =
                ((e.drop (i + 1)).filterMap id).filter
                  (fun x => decide (some x ∈ e₀)) := htr.trans hr2
            rw [hdrop]
            show (lid :: tr.map Prod.fst).filter (fun x => decide (some x ∈ e₀)) =
              ((some lid :: e.drop (i + 1)).filterMap id).filter
                (fun x => decide (some x ∈ e₀))
            have h2 : (id : Option Nat → Option Nat) (some lid) = some lid := rfl
            rw [List.filterMap_cons_some h2, List.filter_cons, List.filter_cons, hx]
          · intro p hp
            rcases List.mem_cons.1 hp with h | h
            · rw [h]
            · exact hargs p h

theorem connect_idem (e : Entries) (f : Nat) :
    connect (connect e f) f = connect e f := by
  by_cases h : some f ∈ e
  · simp [connect, setAdd, h]
  · simp [connect, setAdd, h]

theorem count_live_connect (e : Entries) (f : Nat) (hnd : (live e).Nodup) :
    (live (connect e f)).count f = 1 := by
  by_cases h : some f ∈ e
  · have hf : f ∈ live e := mem_live.2 h
    simp only [connect, setAdd, h, if_pos]
    exact List.count_eq_one_of_mem hnd hf
  · have hf : f ∉ live e := fun hc => h (mem_live.1 hc)
    simp only [connect, setAdd, h, if_neg, not_false_iff]
    have : live (e ++ [some f]) = live e ++ [f] := by
      simp [live, List.filterMap_append]
    rw [this, List.count_append]
    simp [List.count_eq_zero.2 hf]

end Signal

/-! ### Lemmas about insertion-ordered string maps and the heap -/

theorem lookupEntry_setEntry_self {β : Type} (m : List (String × β)) (k : String)
    (v : β) : lookupEntry (setEntry m k v) k = some v := by
  induction m with
  | nil => simp [setEntry, lookupEntry]
  | cons p rest ih =>
      by_cases h : p.1 = k <;> simp [setEntry, lookupEntry, h, ih]

theorem lookupEntry_setEntry_ne {β : Type} (m : List (String × β)) (k k2 : String)
    (v : β) (h : k ≠ k2) :
    lookupEntry (setEntry m k v) k2 = lookupEntry m k2 := by
  induction m with
  | nil => simp [setEntry, lookupEntry, h]
  | cons p rest ih =>
      by_cases hp : p.1 = k
      · simp [setEntry, lookupEntry, hp, h]
      · simp [setEntry, lookupEntry, hp, ih]

theorem lookupEntry_setEntry_isSome {β : Type} (m : List (String × β))
    (k k2 : String) (v : β) (h : (lookupEntry m k2).isSome = true) :
    (lookupEntry (setEntry m k v) k2).isSome = true := by
  by_cases hk : k = k2
  · subst hk; simp [lookupEntry_setEntry_self]
  · rw [lookupEntry_setEntry_ne m k k2 v hk]; exact h

theorem fieldsOf_alloc_ne (h : Heap) (n : Nat) (fs : Fields) (v : Val)
    (hv : ∀ r, v = Val.vObj r → r ≠ n) :
    fieldsOf ((n, fs) :: h) v = fieldsOf h v := by
  cases v with
  | vObj r =>
      have hr : ¬ n = r := fun hh => hv r rfl hh.symm
      simp [fieldsOf, heapGet, hr]
  | vUndef => rfl
  | vNull => rfl
  | vBool b => rfl
  | vNum m => rfl
  | vStr s => rfl
  | vFunc f => rfl

/-! ### Claims about `Signal.emit` -/

/-- Claim C1: for a completed `emit(x)` call during which no listener
    is removed from the set, the invocation trace restricted to the
    listeners registered at the start is exactly that original listener
    list, in connection (insertion) order — each original listener is
    invoked exactly once — and every invocation carries exactly the
    arguments `x`; moreover connecting the same listener reference
    twice is an idempotent registration, so it yields exactly one
    invocation per emit (its live count is one). -/
theorem emit_registered_once_in_order {α : Type} (e₀ : Signal.Entries)
    (beh : Signal.Beh) (args : α) (f : Nat) (fuel : Nat)
    (res : Signal.Entries × List (Nat × α) × List Nat)
    (hnd : ∀ id j, Signal.LStep.disc j ∈ beh id → some j ∉ e₀)
    (hterm : Signal.emit beh args fuel e₀ = some res)
    (hnodup : (Signal.live e₀).Nodup) :
    (res.2.1.map Prod.fst).filter (fun x => decide (some x ∈ e₀)) = Signal.live e₀
    ∧ (∀ p ∈ res.2.1, p.2 = args)
    ∧ Signal.connect (Signal.connect e₀ f) f = Signal.connect e₀ f
    ∧ (Signal.live (Signal.connect e₀ f)).count f = 1 := by
  obtain ⟨htr, hargs⟩ :=
    Signal.emitFrom_originals e₀ beh args hnd fuel 0 e₀ res (fun x hx => hx) hterm
  refine ⟨?_, hargs, Signal.connect_idem e₀ f, Signal.count_live_connect e₀ f hnodup⟩
  rw [htr, List.drop_zero]
  exact List.filter_eq_self.2
    (fun x hx => decide_eq_true (Signal.mem_live.1 hx))

/-- Claim C1 witness: listeners `5` and `7` are registered; `5`
    connects a fresh listener `1` mid-emit (nothing is removed), and
    the trace restricted to the originals is still `[5, 7]`, each with
    the emitted argument; double registration of `9` counts once. -/
theorem emit_registered_once_in_order_witness :
    (([(5, 0), (7, 0), (1, 0)].map Prod.fst).filter
        (fun x => decide (some x ∈ [some 5, some 7])) =
      Signal.live [some 5, some 7])
    ∧ (∀ p ∈ [(5, (0 : Nat)), (7, 0), (1, 0)], p.2 = 0)
    ∧ Signal.connect (Signal.connect [some 5, some 7] 9) 9 =
        Signal.connect [some 5, some 7] 9
    ∧ (Signal.live (Signal.connect [some 5, some 7] 9)).count 9 = 1 := by
  exact emit_registered_once_in_order [some 5, some 7]
    (fun x => if x = 5 then [Signal.LStep.conn 1] else []) 0 9 3
    ([some 5, some 7, some 1], [(5, 0), (7, 0), (1, 0)], [])
    (by
      intro id j hj
      by_cases h5 : id = 5 <;> simp [h5] at hj)
    rfl (by decide)

/-- Claim C2: when no listener mutates the listener set, `emit`
    returns normally (a `some` result) even if listeners throw; every
    registered listener — in particular every listener registered
    after a throwing one — is still invoked with the arguments, and
    the throwing listeners are only reported in the error log. -/
theorem emit_isolates_listener_errors {α : Type} (e : Signal.Entries)
    (beh : Signal.Beh) (args : α)
    (hm : ∀ id, some id ∈ e → Signal.NoMut (beh id)) :
    ∃ tr er, Signal.emit beh args e.length e = some (e, tr, er) ∧
      (∀ x, x ∈ Signal.live e → (x, args) ∈ tr) ∧
      er = (Signal.live e).filter (fun x => Signal.hasRaise (beh x)) := by
  refine ⟨(Signal.live e).map (fun x => (x, args)),
    (Signal.live e).filter (fun x => Signal.hasRaise (beh x)), ?_, ?_, rfl⟩
  · have h := Signal.emitFrom_of_noMut beh args e hm e.length 0 (by omega)
    simpa [Signal.emit, Signal.live] using h
  · intro x hx
    exact List.mem_map.2 ⟨x, hx, rfl⟩

/-- Claim C2 witness: listener `0` throws, listener `2` (registered
    after it) is still invoked, and `emit` returns normally with `0`
    in the error log. -/
theorem emit_isolates_listener_errors_witness :
    ∃ tr er,
      Signal.emit (fun x => if x = 0 then [Signal.LStep.raise] else []) (7 : Nat) 2
        [some 0, some 2] = some ([some 0, some 2], tr, er) ∧
      (∀ x, x ∈ Signal.live [some 0, some 2] → (x, (7 : Nat)) ∈ tr) ∧
      er = (Signal.live [some 0, some 2]).filter
        (fun x => Signal.hasRaise (if x = 0 then [Signal.LStep.raise] else [])) := by
  have h := emit_isolates_listener_errors [some 0, some 2]
    (fun x => if x = 0 then [Signal.LStep.raise] else []) (7 : Nat)
    (fun id _ => by
      by_cases hid : id = 0 <;> simp [hid, Signal.NoMut])
  exact h

/-- Claim C5 counterexample: the set of listeners an `emit` invokes is
    not fixed when the emit begins.  With one registered listener `0`
    whose body connects a fresh listener `1`, the in-flight `emit`
    also invokes `1` — the `forEach` iteration of `Signal.emit` is
    live, not a snapshot — so the trace differs from one invocation
    per initially-registered listener. -/
theorem emit_snapshot_counterexample :
    Signal.emit (fun x => if x = 0 then [Signal.LStep.conn 1] else []) (9 : Nat) 2
      [some 0] = some ([some 0, some 1], [(0, 9), (1, 9)], [])
    ∧ Signal.live [some 0] = [0]
    ∧ [(0, (9 : Nat)), (1, 9)] ≠ ([0].map fun x => (x, (9 : Nat))) := by
  exact ⟨rfl, rfl, by decide⟩

/-- Claim C5 (amended): `Signal.emit` iterates the listener set live,
    with the ECMAScript `Set.forEach` contract: a listener connected
    during an in-flight emit by an earlier listener is invoked by that
    same emit, and a listener disconnected by an earlier listener
    before being reached is not invoked. -/
theorem emit_live_iteration {α : Type} (a b c : Nat) (args : α)
    (hab : a ≠ b) (hac : a ≠ c) :
    Signal.emit (fun x => if x = a then [Signal.LStep.conn b] else []) args 2
      [some a] = some ([some a, some b], [(a, args), (b, args)], [])
    ∧ Signal.emit (fun x => if x = a then [Signal.LStep.disc c] else []) args 2
      [some a, some c] = some ([some a, none], [(a, args)], []) := by
  constructor
  · simp [Signal.emit, Signal.emitFrom, Signal.runSteps, Signal.setAdd,
      hab, hab.symm, Signal.hasRaise]
  · simp [Signal.emit, Signal.emitFrom, Signal.runSteps, Signal.setDelete,
      hab, hac, Signal.hasRaise]

/-- Claim C5 (amended) witness: listener `0` connects `1` mid-emit and
    `1` runs; listener `0` disconnects `2` mid-emit and `2` never
    runs. -/
theorem emit_live_iteration_witness :
    Signal.emit (fun x => if x = 0 then [Signal.LStep.conn 1] else []) (4 : Nat) 2
      [some 0] = some ([some 0, some 1], [(0, 4), (1, 4)], [])
    ∧ Signal.emit (fun x => if x = 0 then [Signal.LStep.disc 2] else []) (4 : Nat) 2
      [some 0, some 2] = some ([some 0, none], [(0, 4)], []) := by
  exact emit_live_iteration 0 1 2 4 (by decide) (by decide)

/-! ### Claims about `Store` -/

/-- Claim C9: `Store.connect` with a missing group and a non-callable
    listener throws the listener `TypeError`, yet the group — and
    inside it the requested signal with zero listeners — was created
    on the way to the failing registration and is not rolled back. -/
theorem connect_non_callable_group_remains (st : StoreSt) (g c : String) (v : Val)
    (hg : lookupEntry st.signals g = none) (hv : ¬ jsTypeof v = "function") :
    Store.connect st g c v =
      (⟨st.heap, st.nextRef, st.state,
        setEntry (setEntry st.signals g []) g [(c, [])]⟩,
       Except.error (JsError.typeError "Signal listener must be a function"))
    ∧ lookupEntry (Store.connect st g c v).1.signals g = some [(c, [])] := by
  have h1 : lookupEntry (setEntry st.signals g ([] : SignalGroupJ)) g = some [] :=
    lookupEntry_setEntry_self _ _ _
  have h2 : Store.connect st g c v =
      (⟨st.heap, st.nextRef, st.state,
        setEntry (setEntry st.signals g []) g [(c, [])]⟩,
       Except.error (JsError.typeError "Signal listener must be a function")) := by
    simp [Store.connect, hg, h1, SignalGroup.get, lookupEntry, setEntry, hv]
  refine ⟨h2, ?_⟩
  rw [h2]
  exact lookupEntry_setEntry_self _ _ _

/-- Claim C9 witness: connecting the number `42` to signal `"c"` of
    the missing group `"g"` fails but leaves the empty signal behind. -/
theorem connect_non_callable_group_remains_witness :
    Store.connect ⟨[], 0, Val.vNull, []⟩ "g" "c" (Val.vNum 42) =
      (⟨[], 0, Val.vNull, setEntry (setEntry [] "g" []) "g" [("c", [])]⟩,
       Except.error (JsError.typeError "Signal listener must be a function"))
    ∧ lookupEntry (Store.connect ⟨[], 0, Val.vNull, []⟩ "g" "c" (Val.vNum 42)).1.signals
        "g" = some [("c", [])] :=
  connect_non_callable_group_remains ⟨[], 0, Val.vNull, []⟩ "g" "c" (Val.vNum 42)
    rfl (by decide)

/-- Claim C10: constructing a `Store` with `null` as the group
    specification reaches the `typeof "object"` branch, where
    `Object.keys(null)` throws a `TypeError`; the `["state"]` default
    applies when the argument is omitted/`undefined`, yielding exactly
    the `"state"` group. -/
theorem construct_null_groups_throws (h : Heap) (n : Nat) (initV : Val) :
    Store.construct h n initV GroupSpec.nullSpec =
      Except.error (JsError.typeError "Cannot convert undefined or null to object")
    ∧ Store.construct h n initV GroupSpec.undef =
      Except.ok ⟨(n, copyFields (fieldsOf h initV)) :: h, n + 1, Val.vObj n,
        [("state", [])]⟩ :=
  ⟨rfl, rfl⟩

/-- Claim C3 counterexample: `null` is neither a mapping nor a
    function, yet `update(null)` does not throw: `typeof null ===
    "object"` sends it down the merge branch, so the state is replaced
    by a fresh shallow copy, an emission happens, and the call returns
    the new state. -/
theorem update_null_updater_counterexample :
    Store.update ⟨[(0, [("a", Val.vNum 0)])], 1, Val.vObj 0, [("state", [])]⟩
        (Updater.val Val.vNull) "state" "changed" =
      (⟨[(2, [("a", Val.vNum 0)]), (1, [("a", Val.vNum 0)]), (0, [("a", Val.vNum 0)])],
        3, Val.vObj 2, [("state", [("changed", [])])]⟩,
       [⟨"state", "changed", [], Val.vObj 2, Val.vObj 1⟩],
       Except.ok (Val.vObj 2))
    ∧ (Store.update ⟨[(0, [("a", Val.vNum 0)])], 1, Val.vObj 0, [("state", [])]⟩
        (Updater.val Val.vNull) "state" "changed").2.1 ≠ [] := by
  exact ⟨rfl, by decide⟩

/-- Claim C3 (amended): for every updater value whose JS type is
    neither `"object"` nor `"function"`, `update` throws the
    `TypeError` `"Updater must be an object or a function"`, performs
    no emission, and leaves `this.state` the exact mapping it was
    (same reference, same fields — only the already-taken `oldState`
    snapshot allocation remains on the heap).  `null` is excluded:
    its JS type is `"object"`, so the code accepts it as an empty
    mapping (see the counterexample). -/
theorem update_bad_updater_throws (st : StoreSt) (v : Val) (g c : String)
    (h1 : ¬ jsTypeof v = "object") (h2 : ¬ jsTypeof v = "function") :
    Store.update st (Updater.val v) g c =
      (⟨(st.nextRef, copyFields (fieldsOf st.heap st.state)) :: st.heap,
        st.nextRef + 1, st.state, st.signals⟩, [],
       Except.error (JsError.typeError "Updater must be an object or a function"))
    ∧ ((∀ r, st.state = Val.vObj r → ¬ r = st.nextRef) →
        fieldsOf (Store.update st (Updater.val v) g c).1.heap st.state =
          fieldsOf st.heap st.state) := by
  have hnf : jsTypeof v ≠ "function" := h2
  have h3 : Store.update st (Updater.val v) g c =
      (⟨(st.nextRef, copyFields (fieldsOf st.heap st.state)) :: st.heap,
        st.nextRef + 1, st.state, st.signals⟩, [],
       Except.error (JsError.typeError "Updater must be an object or a function")) := by
    simp [Store.update, allocObj, h1]
  refine ⟨h3, fun hr => ?_⟩
  rw [h3]
  exact fieldsOf_alloc_ne st.heap st.nextRef _ st.state hr

/-- Claim C3 (amended) witness: `update(42)` throws, emits nothing,
    and the state still points at the untouched `{a: 0}`. -/
theorem update_bad_updater_throws_witness :
    Store.update ⟨[(0, [("a", Val.vNum 0)])], 1, Val.vObj 0, [("state", [])]⟩
        (Updater.val (Val.vNum 42)) "state" "changed" =
      (⟨[(1, [("a", Val.vNum 0)]), (0, [("a", Val.vNum 0)])], 2, Val.vObj 0,
        [("state", [])]⟩, [],
       Except.error (JsError.typeError "Updater must be an object or a function"))
    ∧ fieldsOf (Store.update ⟨[(0, [("a", Val.vNum 0)])], 1, Val.vObj 0,
        [("state", [])]⟩ (Updater.val (Val.vNum 42)) "state" "changed").1.heap
        (Val.vObj 0) =
      fieldsOf [(0, [("a", Val.vNum 0)])] (Val.vObj 0) := by
  have h := update_bad_updater_throws
    ⟨[(0, [("a", Val.vNum 0)])], 1, Val.vObj 0, [("state", [])]⟩
    (Val.vNum 42) "state" "changed" (by decide) (by decide)
  exact ⟨h.1, h.2 (by
    intro r hr
    have hval : Val.vObj 0 = Val.vObj r := hr
    injection hval with hh
    subst hh
    decide)⟩

/-- Claim C4 counterexample: a function updater's return value becomes
    the state verbatim — `update(s => s)` succeeds and leaves
    `this.state` the very same reference it was before the call, so
    the new state is not always a fresh mapping. -/
theorem update_identity_updater_counterexample :
    (Store.update ⟨[(0, [("a", Val.vNum 0)])], 1, Val.vObj 0, [("state", [])]⟩
        (Updater.fn (fun h n v => (h, n, v))) "state" "changed").1.state =
      Val.vObj 0
    ∧ (⟨[(0, [("a", Val.vNum 0)])], 1, Val.vObj 0, [("state", [])]⟩ : StoreSt).state =
      Val.vObj 0
    ∧ (Store.update ⟨[(0, [("a", Val.vNum 0)])], 1, Val.vObj 0, [("state", [])]⟩
        (Updater.fn (fun h n v => (h, n, v))) "state" "changed").2.2 =
      Except.ok (Val.vObj 0) := by
  exact ⟨rfl, rfl, rfl⟩

/-- Claim C4 (amended): for mapping updaters the invariant does hold:
    after a successful `update` with an object updater the state is a
    freshly allocated reference, different from the pre-call state
    reference and from the old-state snapshot passed to listeners.
    (Function updaters give no such guarantee — see the
    counterexample.) -/
theorem update_mapping_fresh_reference (st : StoreSt) (q : Nat) (g c : String)
    (hr : ∀ r, st.state = Val.vObj r → r < st.nextRef) :
    (Store.update st (Updater.val (Val.vObj q)) g c).1.state =
      Val.vObj (st.nextRef + 1)
    ∧ ¬ (Store.update st (Updater.val (Val.vObj q)) g c).1.state = st.state
    ∧ ∀ e ∈ (Store.update st (Updater.val (Val.vObj q)) g c).2.1,
        ¬ e.oldState = (Store.update st (Updater.val (Val.vObj q)) g c).1.state := by
  have hs : (Store.update st (Updater.val (Val.vObj q)) g c).1.state =
      Val.vObj (st.nextRef + 1) := by
    rcases hl : lookupEntry st.signals g with _ | grp <;>
      simp [Store.update, hl, jsTypeof, allocObj]
  have hne : ¬ Val.vObj (st.nextRef + 1) = st.state := by
    intro hcontra
    have := hr (st.nextRef + 1) hcontra.symm
    omega
  refine ⟨hs, by rw [hs]; exact hne, ?_⟩
  intro e he
  rw [hs]
  rcases hl : lookupEntry st.signals g with _ | grp
  · simp [Store.update, hl, jsTypeof, allocObj] at he
  · simp [Store.update, hl, jsTypeof, allocObj] at he
    rw [he]
    intro hcontra
    injection hcontra with hh
    omega

/-- Claim C4 (amended) witness: updating `{a: 0, b: 2}` with the
    mapping `{a: 1}` yields a state that is a fresh reference,
    distinct from both the previous state and the listener
    snapshot. -/
theorem update_mapping_fresh_reference_witness :
    (Store.update ⟨[(0, [("a", Val.vNum 0), ("b", Val.vNum 2)]), (1, [("a", Val.vNum 1)])],
        2, Val.vObj 0, [("state", [])]⟩
        (Updater.val (Val.vObj 1)) "state" "changed").1.state = Val.vObj 3
    ∧ ¬ (Store.update ⟨[(0, [("a", Val.vNum 0), ("b", Val.vNum 2)]), (1, [("a", Val.vNum 1)])],
        2, Val.vObj 0, [("state", [])]⟩
        (Updater.val (Val.vObj 1)) "state" "changed").1.state = Val.vObj 0
    ∧ ∀ e ∈ (Store.update ⟨[(0, [("a", Val.vNum 0), ("b", Val.vNum 2)]), (1, [("a", Val.vNum 1)])],
        2, Val.vObj 0, [("state", [])]⟩
        (Updater.val (Val.vObj 1)) "state" "changed").2.1,
        ¬ e.oldState = (Store.update ⟨[(0, [("a", Val.vNum 0), ("b", Val.vNum 2)]), (1, [("a", Val.vNum 1)])],
        2, Val.vObj 0, [("state", [])]⟩
        (Updater.val (Val.vObj 1)) "state" "changed").1.state := by
  exact update_mapping_fresh_reference
    ⟨[(0, [("a", Val.vNum 0), ("b", Val.vNum 2)]), (1, [("a", Val.vNum 1)])],
      2, Val.vObj 0, [("state", [])]⟩ 1 "state" "changed"
    (by
      intro r hr
      have hval : Val.vObj 0 = Val.vObj r := hr
      injection hval with hh
      subst hh
      decide)

/-! ### The `"state"` group invariant (helper lemmas) -/

theorem ensureState_hasState (s : List (String × SignalGroupJ)) :
    (lookupEntry (Store.ensureState s) "state").isSome = true := by
  unfold Store.ensureState
  cases h : lookupEntry s "state" with
  | none => simp [lookupEntry_setEntry_self]
  | some grp => simp [h]

theorem construct_hasState (h : Heap) (n : Nat) (initV : Val) (sg : GroupSpec)
    (st : StoreSt) (hok : Store.construct h n initV sg = Except.ok st) :
    Store.hasState st := by
  have hsig : ∃ s0, st.signals = Store.ensureState s0 := by
    cases sg with
    | undef =>
        simp only [Store.construct] at hok
        injection hok with hok2
        exact ⟨_, by rw [← hok2]⟩
    | arr xs =>
        simp only [Store.construct] at hok
        injection hok with hok2
        exact ⟨_, by rw [← hok2]⟩
    | objRef r =>
        simp only [Store.construct] at hok
        injection hok with hok2
        exact ⟨_, by rw [← hok2]⟩
    | nullSpec => simp [Store.construct] at hok
    | prim v =>
        simp only [Store.construct] at hok
        injection hok with hok2
        exact ⟨_, by rw [← hok2]⟩
  obtain ⟨s0, hs0⟩ := hsig
  unfold Store.hasState
  rw [hs0]
  exact ensureState_hasState s0

theorem update_preserves_hasState (st : StoreSt) (u : Updater) (g c : String)
    (hs : Store.hasState st) : Store.hasState (Store.update st u g c).1 := by
  unfold Store.hasState at hs ⊢
  cases u with
  | fn f =>
      rcases hl : lookupEntry st.signals g with _ | grp
      · simpa [Store.update, hl] using hs
      · simp [Store.update, hl]
        exact lookupEntry_setEntry_isSome _ _ _ _ hs
  | val v =>
      by_cases hv : jsTypeof v = "object"
      · rcases hl : lookupEntry st.signals g with _ | grp
        · simpa [Store.update, hl, hv] using hs
        · simp [Store.update, hl, hv]
          exact lookupEntry_setEntry_isSome _ _ _ _ hs
      · simpa [Store.update, hv] using hs

theorem connect_preserves_hasState (st : StoreSt) (g c : String) (l : Val)
    (hs : Store.hasState st) : Store.hasState (Store.connect st g c l).1 := by
  unfold Store.hasState at hs ⊢
  have hs1 : ∀ s1 : List (String × SignalGroupJ),
      (lookupEntry s1 "state").isSome = true →
      ∀ grp2, (lookupEntry (setEntry s1 g grp2) "state").isSome = true :=
    fun s1 h grp2 => lookupEntry_setEntry_isSome s1 g "state" grp2 h
  rcases hl : lookupEntry st.signals g with _ | grp
  · by_cases hf : jsTypeof l = "function" <;>
      simp [Store.connect, hl, hf] <;>
      exact hs1 _ (lookupEntry_setEntry_isSome _ _ _ _ hs) _
  · by_cases hf : jsTypeof l = "function" <;>
      simp [Store.connect, hl, hf] <;>
      exact hs1 _ hs _

theorem select_preserves_hasState (st : StoreSt) (sel : Selector)
    (hs : Store.hasState st) : Store.hasState (Store.select st sel).1 := by
  unfold Store.hasState at hs ⊢
  cases sel <;> exact hs

theorem reset_preserves_hasState (st : StoreSt) (x : Val)
    (hs : Store.hasState st) : Store.hasState (Store.reset st x).1 := by
  unfold Store.hasState at hs ⊢
  rcases hl : lookupEntry st.signals "state" with _ | grp
  · rw [hl] at hs
    simp at hs
  · simp [Store.reset, hl]
    exact lookupEntry_setEntry_isSome _ _ _ _ hs

theorem reset_emits_on_state_reset (st : StoreSt) (x : Val)
    (hs : Store.hasState st) (hx : ∀ r, x = Val.vObj r → ¬ r = st.nextRef) :
    (Store.reset st x).1.state = Val.vObj (st.nextRef + 1)
    ∧ heapGet (Store.reset st x).1.heap (st.nextRef + 1) =
        copyFields (fieldsOf st.heap x)
    ∧ ∃ ls, (Store.reset st x).2.1 =
        [⟨"state", "reset", ls, Val.vObj (st.nextRef + 1), Val.vObj st.nextRef⟩] := by
  unfold Store.hasState at hs
  rcases hl : lookupEntry st.signals "state" with _ | grp
  · rw [hl] at hs; simp at hs
  · refine ⟨?_, ?_, ?_⟩
    · simp [Store.reset, hl, allocObj]
    · simp [Store.reset, hl, allocObj, heapGet]
      exact congrArg copyFields (fieldsOf_alloc_ne st.heap st.nextRef _ x hx)
    · exact ⟨(SignalGroup.get grp "reset").2, by simp [Store.reset, hl, allocObj]⟩

/-- Claim C6: every way of constructing a `Store` — whatever the
    initial state and whether the group specification is a list of
    names, an object keyed by names, or (as a value neither array nor
    object) ignored — yields a store whose `"state"` group exists;
    `update`, `connect`, `select` and `reset` all preserve this
    invariant; and consequently `reset(x)` on any store satisfying it
    always emits `(newState, oldState)` on the `"reset"` signal of the
    `"state"` group, leaving the state a fresh shallow copy of `x`. -/
theorem store_state_group_invariant :
    (∀ h n initV sg st, Store.construct h n initV sg = Except.ok st →
        Store.hasState st)
    ∧ (∀ st u g c, Store.hasState st → Store.hasState (Store.update st u g c).1)
    ∧ (∀ st g c l, Store.hasState st → Store.hasState (Store.connect st g c l).1)
    ∧ (∀ st sel, Store.hasState st → Store.hasState (Store.select st sel).1)
    ∧ (∀ st x, Store.hasState st → Store.hasState (Store.reset st x).1)
    ∧ (∀ st x, Store.hasState st → (∀ r, x = Val.vObj r → ¬ r = st.nextRef) →
        (Store.reset st x).1.state = Val.vObj (st.nextRef + 1)
        ∧ heapGet (Store.reset st x).1.heap (st.nextRef + 1) =
            copyFields (fieldsOf st.heap x)
        ∧ ∃ ls, (Store.reset st x).2.1 =
            [⟨"state", "reset", ls, Val.vObj (st.nextRef + 1),
              Val.vObj st.nextRef⟩]) :=
  ⟨construct_hasState, update_preserves_hasState, connect_preserves_hasState,
   select_preserves_hasState, reset_preserves_hasState, reset_emits_on_state_reset⟩

/-- Claim C6 witness: on a store with state `{x: 1}` and only the
    `"state"` group, `reset({x: 1})` emits on `("state", "reset")` and
    installs a fresh copy of the new initial state. -/
theorem store_state_group_invariant_witness :
    Store.hasState ⟨[(0, [("x", Val.vNum 1)])], 1, Val.vObj 0, [("state", [])]⟩
    ∧ ((Store.reset ⟨[(0, [("x", Val.vNum 1)])], 1, Val.vObj 0, [("state", [])]⟩
        (Val.vObj 0)).1.state = Val.vObj 2
      ∧ heapGet (Store.reset ⟨[(0, [("x", Val.vNum 1)])], 1, Val.vObj 0,
          [("state", [])]⟩ (Val.vObj 0)).1.heap 2 =
        copyFields (fieldsOf [(0, [("x", Val.vNum 1)])] (Val.vObj 0))
      ∧ ∃ ls, (Store.reset ⟨[(0, [("x", Val.vNum 1)])], 1, Val.vObj 0,
          [("state", [])]⟩ (Val.vObj 0)).2.1 =
        [⟨"state", "reset", ls, Val.vObj 2, Val.vObj 1⟩]) := by
  refine ⟨rfl, ?_⟩
  exact store_state_group_invariant.2.2.2.2.2
    ⟨[(0, [("x", Val.vNum 1)])], 1, Val.vObj 0, [("state", [])]⟩ (Val.vObj 0) rfl
    (by
      intro r hr
      have hval : Val.vObj 0 = Val.vObj r := hr
      injection hval with hh
      subst hh
      decide)

/-- Claim C7: with a valid updater and a group name that does not name
    an existing group, `update` emits nothing, raises nothing, still
    performs the state change (for a mapping updater the state becomes
    the freshly merged object) and returns the new state, leaving the
    signal table untouched; whereas `connect` on the same missing
    group auto-creates the group and the signal before registering the
    listener. -/
theorem update_missing_group_silent_connect_creates :
    (∀ st u g c, lookupEntry st.signals g = none → Updater.Valid u →
        (Store.update st u g c).2.1 = []
        ∧ (Store.update st u g c).2.2 = Except.ok (Store.update st u g c).1.state
        ∧ (Store.update st u g c).1.signals = st.signals)
    ∧ (∀ st v g c, lookupEntry st.signals g = none → jsTypeof v = "object" →
        (∀ r, st.state = Val.vObj r → ¬ r = st.nextRef) →
        (∀ r, v = Val.vObj r → ¬ r = st.nextRef) →
        (Store.update st (Updater.val v) g c).1.state = Val.vObj (st.nextRef + 1)
        ∧ heapGet (Store.update st (Updater.val v) g c).1.heap (st.nextRef + 1) =
            mergeFields (fieldsOf st.heap st.state) (fieldsOf st.heap v))
    ∧ (∀ st g c k, lookupEntry st.signals g = none →
        (Store.connect st g c (Val.vFunc k)).2 = Except.ok ()
        ∧ lookupEntry (Store.connect st g c (Val.vFunc k)).1.signals g =
            some [(c, [Val.vFunc k])]) := by
  refine ⟨?_, ?_, ?_⟩
  · intro st u g c hg hu
    cases u with
    | fn f => simp [Store.update, hg]
    | val v =>
        have hv : jsTypeof v = "object" := hu
        simp [Store.update, hg, hv]
  · intro st v g c hg hv hst hv2
    constructor
    · simp [Store.update, hg, hv, allocObj]
    · simp [Store.update, hg, hv, allocObj, heapGet]
      rw [fieldsOf_alloc_ne st.heap st.nextRef _ st.state hst,
        fieldsOf_alloc_ne st.heap st.nextRef _ v hv2]
  · intro st g c k hg
    have h1 : lookupEntry (setEntry st.signals g ([] : SignalGroupJ)) g = some [] :=
      lookupEntry_setEntry_self _ _ _
    constructor
    · simp [Store.connect, hg, h1, SignalGroup.get, lookupEntry, setEntry,
        listenerAdd, jsTypeof]
    · have h2 : (Store.connect st g c (Val.vFunc k)).1.signals =
          setEntry (setEntry st.signals g []) g [(c, [Val.vFunc k])] := by
        simp [Store.connect, hg, h1, SignalGroup.get, lookupEntry, setEntry,
          listenerAdd, jsTypeof]
      rw [h2]
      exact lookupEntry_setEntry_self _ _ _

/-- Claim C7 witness: updating a store through the missing group
    `"g"` changes the state silently; connecting through `"g"`
    creates it with the requested signal and listener. -/
theorem update_missing_group_silent_connect_creates_witness :
    ((Store.update ⟨[(0, [("a", Val.vNum 0)])], 1, Val.vObj 0, [("state", [])]⟩
        (Updater.val (Val.vObj 0)) "g" "c").2.1 = []
      ∧ (Store.update ⟨[(0, [("a", Val.vNum 0)])], 1, Val.vObj 0, [("state", [])]⟩
          (Updater.val (Val.vObj 0)) "g" "c").2.2 =
        Except.ok (Store.update ⟨[(0, [("a", Val.vNum 0)])], 1, Val.vObj 0,
          [("state", [])]⟩ (Updater.val (Val.vObj 0)) "g" "c").1.state
      ∧ (Store.update ⟨[(0, [("a", Val.vNum 0)])], 1, Val.vObj 0, [("state", [])]⟩
          (Updater.val (Val.vObj 0)) "g" "c").1.signals = [("state", [])])
    ∧ ((Store.connect ⟨[(0, [("a", Val.vNum 0)])], 1, Val.vObj 0, [("state", [])]⟩
        "g" "c" (Val.vFunc 5)).2 = Except.ok ()
      ∧ lookupEntry (Store.connect ⟨[(0, [("a", Val.vNum 0)])], 1, Val.vObj 0,
          [("state", [])]⟩ "g" "c" (Val.vFunc 5)).1.signals "g" =
        some [("c", [Val.vFunc 5])]) := by
  constructor
  · exact update_missing_group_silent_connect_creates.1
      ⟨[(0, [("a", Val.vNum 0)])], 1, Val.vObj 0, [("state", [])]⟩
      (Updater.val (Val.vObj 0)) "g" "c" rfl rfl
  · exact update_missing_group_silent_connect_creates.2.2
      ⟨[(0, [("a", Val.vNum 0)])], 1, Val.vObj 0, [("state", [])]⟩ "g" "c" 5 rfl

/-! ### `select` with a list selector -/

theorem lookup_foldl_setEntry_notMem (f : String → Val) :
    ∀ (ks : List String) (acc : Fields) (k : String), k ∉ ks →
    lookupEntry (ks.foldl (fun a k2 => setEntry a k2 (f k2)) acc) k =
      lookupEntry acc k := by
  intro ks
  induction ks with
  | nil => intro acc k _; rfl
  | cons k2 rest ih =>
      intro acc k hk
      have hne : k2 ≠ k := fun h => hk (h ▸ List.mem_cons_self k2 rest)
      rw [List.foldl_cons, ih _ k (fun h => hk (List.mem_cons_of_mem _ h))]
      exact lookupEntry_setEntry_ne acc k2 k _ hne

theorem lookup_foldl_setEntry_mem (f : String → Val) :
    ∀ (ks : List String) (acc : Fields) (k : String), k ∈ ks →
    lookupEntry (ks.foldl (fun a k2 => setEntry a k2 (f k2)) acc) k =
      some (f k) := by
  intro ks
  induction ks with
  | nil => intro _ k hk; cases hk
  | cons k2 rest ih =>
      intro acc k hk
      by_cases hr : k ∈ rest
      · rw [List.foldl_cons]
        exact ih _ k hr
      · have hk2 : k = k2 := by
          rcases List.mem_cons.1 hk with h | h
          · exact h
          · exact absurd h hr
        subst hk2
        rw [List.foldl_cons, lookup_foldl_setEntry_notMem f rest _ k hr]
        exact lookupEntry_setEntry_self _ _ _

/-- Claim C8 counterexample: on state `{a: {b: 1}}`, the list selector
    `["a.b"]` yields `{"a.b": 1}` — the entry is dot-split and
    traverses `a` then `b`, exactly like the plain string selector —
    whereas selecting `"a.b"` as a single flat key of the state would
    yield `{"a.b": undefined}`. -/
theorem select_list_flat_key_counterexample :
    (Store.select ⟨[(1, [("b", Val.vNum 1)]), (0, [("a", Val.vObj 1)])], 2,
        Val.vObj 0, [("state", [])]⟩ (Selector.list ["a.b"])).2 = Val.vObj 2
    ∧ heapGet (Store.select ⟨[(1, [("b", Val.vNum 1)]), (0, [("a", Val.vObj 1)])],
        2, Val.vObj 0, [("state", [])]⟩ (Selector.list ["a.b"])).1.heap 2 =
      [("a.b", Val.vNum 1)]
    ∧ Store.selectStr ⟨[(1, [("b", Val.vNum 1)]), (0, [("a", Val.vObj 1)])], 2,
        Val.vObj 0, [("state", [])]⟩ "a.b" = Val.vNum 1
    ∧ Store.selectListFlatSpec ⟨[(1, [("b", Val.vNum 1)]), (0, [("a", Val.vObj 1)])],
        2, Val.vObj 0, [("state", [])]⟩ ["a.b"] = [("a.b", Val.vUndef)]
    ∧ ([("a.b", Val.vNum 1)] : Fields) ≠ [("a.b", Val.vUndef)] := by
  exact ⟨rfl, rfl, rfl, rfl, by decide⟩

/-- Claim C8 (amended): `select` with a list of string keys returns a
    fresh mapping whose value at each entry `k` is the result of the
    full recursive `select(k)` — the same dot-delimited deep-path
    selection a plain string selector performs — not a flat
    single-key lookup. -/
theorem select_list_entries_are_dot_paths (st : StoreSt) (ks : List String)
    (k : String) (hk : k ∈ ks) :
    (Store.select st (Selector.list ks)).2 = Val.vObj st.nextRef
    ∧ lookupEntry (heapGet (Store.select st (Selector.list ks)).1.heap st.nextRef)
        k = some (Store.selectStr st k) := by
  constructor
  · simp [Store.select, allocObj]
  · simp only [Store.select, allocObj, heapGet, if_pos rfl]
    exact lookup_foldl_setEntry_mem _ ks [] k hk

/-- Claim C8 (amended) witness: on state `{a: {b: 1}}`, the list
    selector `["a.b"]` maps `"a.b"` to the deep-path result `1`. -/
theorem select_list_entries_are_dot_paths_witness :
    (Store.select ⟨[(1, [("b", Val.vNum 1)]), (0, [("a", Val.vObj 1)])], 2,
        Val.vObj 0, [("state", [])]⟩ (Selector.list ["a.b"])).2 = Val.vObj 2
    ∧ lookupEntry (heapGet (Store.select ⟨[(1, [("b", Val.vNum 1)]),
        (0, [("a", Val.vObj 1)])], 2, Val.vObj 0, [("state", [])]⟩
        (Selector.list ["a.b"])).1.heap 2) "a.b" =
      some (Store.selectStr ⟨[(1, [("b", Val.vNum 1)]), (0, [("a", Val.vObj 1)])],
        2, Val.vObj 0, [("state", [])]⟩ "a.b") :=
  select_list_entries_are_dot_paths
    ⟨[(1, [("b", Val.vNum 1)]), (0, [("a", Val.vObj 1)])], 2, Val.vObj 0,
      [("state", [])]⟩ ["a.b"] "a.b" (by decide)

end Signals
